import Mathlib

/-!
Verification of the dotslash cache-and-fetch core: cache-root resolution
(`get_dotslash_cache`, `is_safe_to_own`, `named_cache_dir_at`), cache layout
(`locks_dir` / `artifacts_dir`), the tree hardener
(`make_tree_entries_read_only`), and the HTTP fetch provider
(`HttpProvider::fetch_artifact`).

Filesystem paths are modelled as lists of components (root = `[]`); `join`
with a relative component is list append.  `stat` system calls are modelled
by an oracle function from paths to outcomes, matching the cases the Rust
code distinguishes on `symlink_metadata`.
-/

namespace Dotslash

/-- A filesystem path, as its list of components from the root. -/
abbrev FsPath := List String

/-- Outcome of `Path::symlink_metadata` as the Rust code distinguishes it:
success carries the owner uid (the only metadata field `is_safe_to_own`
reads); the error cases are `NotFound`, `ENOTDIR`, `PermissionDenied`, and
any other I/O error. -/
inductive StatResult where
  | ok (uid : Nat)
  | notFound
  | notDir
  | permissionDenied
  | otherError
deriving DecidableEq, Repr

/-- `Path::ancestors`: the path itself, then each parent, down to the root. -/
def ancestors : FsPath → List FsPath
  | [] => [[]]
  | a :: rest => (a :: rest) :: ancestors (a :: rest).dropLast
termination_by p => p.length
decreasing_by
  simp [List.length_dropLast]

/-- The loop body of `is_safe_to_own` (src/dotslash_cache.rs): walk the
ancestor list; on a successful stat return the ownership comparison; on
`NotFound` or `ENOTDIR` continue; on `PermissionDenied` or any other error
return false; if the list is exhausted return false. -/
def safeWalk (stat : FsPath → StatResult) (euid : Nat) : List FsPath → Bool
  | [] => false
  | a :: rest =>
    match stat a with
    | .ok uid => euid == uid
    | .notFound => safeWalk stat euid rest
    | .notDir => safeWalk stat euid rest
    | .permissionDenied => false
    | .otherError => false

/-- `is_safe_to_own` (src/dotslash_cache.rs, lines 134-169): iterate over
`path.ancestors()` with the loop above. `stat` is the `symlink_metadata`
oracle and `euid` the current effective uid (`getuid()`). -/
def is_safe_to_own (stat : FsPath → StatResult) (euid : Nat) (path : FsPath) : Bool :=
  safeWalk stat euid (ancestors path)

/-- Whether a stat outcome means "the ancestor does not block the walk":
`NotFound` and `ENOTDIR` are the two cases the code skips past. -/
def isSkippable (r : StatResult) : Bool :=
  match r with
  | .notFound => true
  | .notDir => true
  | _ => false

/-- The ownership-safety check as the spec words it: find the first ancestor
(most specific first) whose stat is decisive (not skipped); the path is safe
iff that ancestor exists on the filesystem and is owned by the current
effective user; errors and an exhausted walk are unsafe. -/
def spec_safe_to_own (stat : FsPath → StatResult) (euid : Nat) (path : FsPath) : Bool :=
  match (ancestors path).find? (fun a => !(isSkippable (stat a))) with
  | some a =>
    match stat a with
    | .ok uid => euid == uid
    | _ => false
  | none => false

theorem safeWalk_eq_find (stat : FsPath → StatResult) (euid : Nat) (l : List FsPath) :
    safeWalk stat euid l =
      match l.find? (fun a => !(isSkippable (stat a))) with
      | some a =>
        match stat a with
        | .ok uid => euid == uid
        | _ => false
      | none => false := by
  induction l with
  | nil => rfl
  | cons a rest ih =>
    cases h : stat a with
    | ok uid =>
      simp [safeWalk, h, List.find?, isSkippable]
    | notFound =>
      simp [safeWalk, h, List.find?, isSkippable, ih]
    | notDir =>
      simp [safeWalk, h, List.find?, isSkippable, ih]
    | permissionDenied =>
      simp [safeWalk, h, List.find?, isSkippable]
    | otherError =>
      simp [safeWalk, h, List.find?, isSkippable]

/-- C1: the ownership-safety check equals its spec characterisation: the walk
over the ancestors from most-specific to root returns true iff the first
ancestor whose stat is decisive (a non-existent ancestor and an ENOTDIR
failure are skipped) exists and is owned by the current effective user;
permission-denied, other I/O errors, and exhaustion yield false. -/
theorem is_safe_to_own_correct (stat : FsPath → StatResult) (euid : Nat) (path : FsPath) :
    is_safe_to_own stat euid path = spec_safe_to_own stat euid path := by
  unfold is_safe_to_own spec_safe_to_own
  exact safeWalk_eq_find stat euid (ancestors path)

/-- Witness for C1 at a concrete stat oracle: `/a/b` does not exist, `/a`
is a file (ENOTDIR when statting below it would not occur here, but `/a`
itself stats fine), owned by uid 1000. -/
theorem is_safe_to_own_correct_witness :
    is_safe_to_own
        (fun p => if p = ["a", "b"] then .notFound
          else if p = ["a"] then .ok 1000 else .ok 0)
        1000 ["a", "b"] =
      spec_safe_to_own
        (fun p => if p = ["a", "b"] then .notFound
          else if p = ["a"] then .ok 1000 else .ok 0)
        1000 ["a", "b"] :=
  is_safe_to_own_correct
    (fun p => if p = ["a", "b"] then .notFound
      else if p = ["a"] then .ok 1000 else .ok 0)
    1000 ["a", "b"]

/-! ### Cache layout (`DotslashCache`) -/

/-- `DotslashCache` (src/dotslash_cache.rs): wraps the cache root path. -/
structure DotslashCache where
  cache_dir : FsPath
deriving DecidableEq, Repr

/-- `DotslashCache::artifacts_dir`: the cache root itself. -/
def DotslashCache.artifacts_dir (c : DotslashCache) : FsPath :=
  c.cache_dir

/-- `DotslashCache::locks_dir`: `cache_dir.join("locks").join(artifact_hash_pfx)`. -/
def DotslashCache.locks_dir (c : DotslashCache) (artifact_hash_pfx : String) : FsPath :=
  c.cache_dir ++ ["locks", artifact_hash_pfx]

/-- A lowercase hex digit. -/
def isLowerHexDigit (ch : Char) : Bool :=
  ch.isDigit || ('a' ≤ ch && ch ≤ 'f')

/-- A valid artifact-hash sharding key: exactly two lowercase hex digits. -/
def isValidHashPfx (s : String) : Bool :=
  s.length == 2 && s.toList.all isLowerHexDigit

/-- C6: `locks_dir p` is `root/locks/p`, `artifacts_dir` is the root, and the
locks path is never equal to (nor a prefix of) the artifact shard path
`artifacts_dir/p`, for any valid two-lowercase-hex sharding key. -/
theorem locks_dir_disjoint_from_shards (c : DotslashCache) (p : String)
    (_hp : isValidHashPfx p = true) :
    c.locks_dir p = c.cache_dir ++ ["locks", p] ∧
    c.artifacts_dir = c.cache_dir ∧
    ¬ (c.locks_dir p <+: c.artifacts_dir ++ [p]) := by
  refine ⟨rfl, rfl, fun h => ?_⟩
  have hlen := h.length_le
  simp [DotslashCache.locks_dir, DotslashCache.artifacts_dir] at hlen

/-- Witness for C6 at a concrete cache root and hash key. -/
theorem locks_dir_disjoint_from_shards_witness :
    (DotslashCache.mk ["home", "u", "cache", "dotslash"]).locks_dir "ab" =
      ["home", "u", "cache", "dotslash"] ++ ["locks", "ab"] ∧
    (DotslashCache.mk ["home", "u", "cache", "dotslash"]).artifacts_dir =
      ["home", "u", "cache", "dotslash"] ∧
    ¬ ((DotslashCache.mk ["home", "u", "cache", "dotslash"]).locks_dir "ab" <+:
      (DotslashCache.mk ["home", "u", "cache", "dotslash"]).artifacts_dir ++ ["ab"]) :=
  locks_dir_disjoint_from_shards (DotslashCache.mk ["home", "u", "cache", "dotslash"]) "ab"
    (by decide)

/-! ### Cache-root resolution (`get_dotslash_cache`, unix) -/

/-- The name of the cache-root override environment variable. -/
def DOTSLASH_CACHE_ENV : String := "DOTSLASH_CACHE"

/-- The diagnostic used by the fatal abort in `get_dotslash_cache`. -/
def noCacheRootPanicMsg : String :=
  "could not find DotSlash root - specify $DOTSLASH_CACHE"

/-- The process environment and OS identity `get_dotslash_cache` reads on
unix: the value of the override variable (as a path), the `dirs::cache_dir()`
outcome, `env::temp_dir()`, the effective uid, and the stat oracle used by
the ownership-safety check. -/
structure Env where
  dotslash_cache : Option FsPath
  dirs_cache_dir : Option FsPath
  temp_dir : FsPath
  euid : Nat
  stat : FsPath → StatResult

/-- The outcome of cache-root resolution: either a path, or a process abort
(`panic!`) with a diagnostic message. -/
inductive CacheRootResult where
  | ok (p : FsPath)
  | panicked (msg : String)
deriving DecidableEq, Repr

/-- `named_cache_dir_at` (src/dotslash_cache.rs, unix): push the component
`"dotslash-" + uid` onto `dir`. -/
def named_cache_dir_at (uid : Nat) (dir : FsPath) : FsPath :=
  dir ++ ["dotslash-" ++ toString uid]

/-- `get_dotslash_cache` (src/dotslash_cache.rs, lines 72-110, unix build):
return the override variable verbatim when set; otherwise join "dotslash"
onto `dirs::cache_dir()` (aborting if that is `None`), and fall back to
`named_cache_dir_at(temp_dir)` when the candidate is not safe to own.
The second component records every path passed to `is_safe_to_own`, in
order, so that "no ownership check performed" is statable. -/
def get_dotslash_cache (env : Env) : CacheRootResult × List FsPath :=
  match env.dotslash_cache with
  | some val => (.ok val, [])
  | none =>
    match env.dirs_cache_dir with
    | none => (.panicked noCacheRootPanicMsg, [])
    | some d =>
      let cache_dir := d ++ ["dotslash"]
      if is_safe_to_own env.stat env.euid cache_dir then
        (.ok cache_dir, [cache_dir])
      else
        (.ok (named_cache_dir_at env.euid env.temp_dir), [cache_dir])

/-- C3: when the override variable is set, resolution returns its value
verbatim and performs zero ownership checks (the check trace is empty),
whatever the rest of the environment and filesystem look like. -/
theorem get_dotslash_cache_override (env : Env) (v : FsPath)
    (h : env.dotslash_cache = some v) :
    get_dotslash_cache env = (.ok v, []) := by
  unfold get_dotslash_cache
  rw [h]

/-- Witness for C3: override set to `/tmp/custom-cache` in a concrete
environment whose preferred cache dir is owned by another user. -/
theorem get_dotslash_cache_override_witness :
    get_dotslash_cache
      (Env.mk (some ["tmp", "custom-cache"]) (some ["root", ".cache"]) ["tmp"] 1000
        (fun _ => .ok 0)) =
      (.ok ["tmp", "custom-cache"], []) :=
  get_dotslash_cache_override
    (Env.mk (some ["tmp", "custom-cache"]) (some ["root", ".cache"]) ["tmp"] 1000
      (fun _ => .ok 0))
    ["tmp", "custom-cache"] rfl

/-- C7: with the override unset and the preferred candidate not safe to own,
resolution returns the directory under the platform temp dir named
`dotslash-` followed by the numeric user id. -/
theorem get_dotslash_cache_unsafe_fallback (env : Env) (d : FsPath)
    (hovr : env.dotslash_cache = none)
    (hdirs : env.dirs_cache_dir = some d)
    (hfellback : is_safe_to_own env.stat env.euid (d ++ ["dotslash"]) = false) :
    (get_dotslash_cache env).1 =
      .ok (env.temp_dir ++ ["dotslash-" ++ toString env.euid]) := by
  unfold get_dotslash_cache
  rw [hovr, hdirs]
  simp [hfellback, named_cache_dir_at]

/-- Witness for C7: a concrete environment where the preferred candidate's
nearest existing ancestor is owned by root while the process runs as uid
1000. -/
theorem get_dotslash_cache_unsafe_fallback_witness :
    (get_dotslash_cache
      (Env.mk none (some ["root", ".cache"]) ["tmp"] 1000 (fun _ => .ok 0))).1 =
      .ok (["tmp"] ++ ["dotslash-" ++ toString 1000]) :=
  get_dotslash_cache_unsafe_fallback
    (Env.mk none (some ["root", ".cache"]) ["tmp"] 1000 (fun _ => .ok 0))
    ["root", ".cache"] rfl rfl
    (by simp [is_safe_to_own, ancestors, safeWalk])

/-- C8: with the override unset and the preferred-cache-directory lookup
failing structurally (`dirs::cache_dir()` is `None`), resolution aborts the
process with a diagnostic that names the override variable, rather than
returning a path or a recoverable error. -/
theorem get_dotslash_cache_no_home_panics (env : Env)
    (hovr : env.dotslash_cache = none)
    (hdirs : env.dirs_cache_dir = none) :
    get_dotslash_cache env = (.panicked noCacheRootPanicMsg, []) ∧
    DOTSLASH_CACHE_ENV.toList <:+: noCacheRootPanicMsg.toList := by
  constructor
  · unfold get_dotslash_cache
    rw [hovr, hdirs]
  · decide

/-- Witness for C8 at a concrete environment with no home directory. -/
theorem get_dotslash_cache_no_home_panics_witness :
    get_dotslash_cache (Env.mk none none ["tmp"] 1000 (fun _ => .notFound)) =
      (.panicked noCacheRootPanicMsg, []) ∧
    DOTSLASH_CACHE_ENV.toList <:+: noCacheRootPanicMsg.toList :=
  get_dotslash_cache_no_home_panics
    (Env.mk none none ["tmp"] 1000 (fun _ => .notFound)) rfl rfl

/-! ### Tree hardener (`make_tree_entries_read_only`) -/

/-- A filesystem tree node as the hardener sees it via `symlink_metadata`:
a regular file, a directory with named children, or a symlink (never
followed, so modelled as a leaf). Each carries its read-only permission
bit. -/
inductive FsNode where
  | file (readonly : Bool)
  | dir (readonly : Bool) (entries : List (String × FsNode))
  | symlink (readonly : Bool)

/-- The loop of `make_tree_entries_read_only`
(src/util/make_tree_read_only.rs, lines 20-38) over the children of the
directory at `path`. `fail` is the fault oracle for `set_permissions` (true
means the call errors). Returns the updated children, whether the loop
completed without error, and the ordered trace of paths passed to
`set_permissions`. A symlink entry is skipped; a directory entry is
recursed into first and, when the recursion succeeds, the entry itself is
then marked read-only; an error stops the loop, leaving later entries
untouched. -/
def mkEntriesRO (fail : FsPath → Bool) (path : FsPath) :
    List (String × FsNode) → List (String × FsNode) × (Bool × List FsPath)
  | [] => ([], (true, []))
  | (name, .symlink ro) :: rest =>
    let r := mkEntriesRO fail path rest
    ((name, .symlink ro) :: r.1, r.2)
  | (name, .file ro) :: rest =>
    if fail (path ++ [name]) then
      ((name, .file ro) :: rest, (false, [path ++ [name]]))
    else
      let r := mkEntriesRO fail path rest
      ((name, .file true) :: r.1, (r.2.1, (path ++ [name]) :: r.2.2))
  | (name, .dir ro entries) :: rest =>
    let rc := mkEntriesRO fail (path ++ [name]) entries
    if rc.2.1 then
      if fail (path ++ [name]) then
        ((name, .dir ro rc.1) :: rest, (false, rc.2.2 ++ [path ++ [name]]))
      else
        let r := mkEntriesRO fail path rest
        ((name, .dir true rc.1) :: r.1, (r.2.1, rc.2.2 ++ (path ++ [name]) :: r.2.2))
    else
      ((name, .dir ro rc.1) :: rest, (false, rc.2.2))

/-- `make_tree_entries_read_only(folder)` on the tree rooted at `path`: harden
the children of `folder`; `folder`'s own node (in particular its permission
bit) is rebuilt unchanged around the updated children. The non-directory
case violates the function's precondition (`read_dir` would error), so it
errors without touching anything. -/
def make_tree_entries_read_only (fail : FsPath → Bool) (path : FsPath) (folder : FsNode) :
    FsNode × (Bool × List FsPath) :=
  match folder with
  | .dir ro entries =>
    let r := mkEntriesRO fail path entries
    (.dir ro r.1, r.2)
  | other => (other, (false, []))

/-- The spec's picture of a fully hardened children list: every file and
directory inside, recursively, has its read-only bit set; every symlink is
untouched. -/
def hardenedEntries : List (String × FsNode) → List (String × FsNode)
  | [] => []
  | (name, .file _) :: rest => (name, .file true) :: hardenedEntries rest
  | (name, .symlink ro) :: rest => (name, .symlink ro) :: hardenedEntries rest
  | (name, .dir _ entries) :: rest =>
    (name, .dir true (hardenedEntries entries)) :: hardenedEntries rest

/-- Sibling names are distinct at every level of the tree (true of any list
produced by `read_dir` on a real filesystem). -/
def namesNodup : List (String × FsNode) → Bool
  | [] => true
  | (name, .dir _ entries) :: rest =>
    !(rest.any (fun e => e.1 == name)) && namesNodup entries && namesNodup rest
  | (name, _) :: rest =>
    !(rest.any (fun e => e.1 == name)) && namesNodup rest

/-- A `set_permissions` trace is post-ordered: whenever one recorded path is
a strict ancestor of another, the descendant's operation comes first. In
particular every directory is marked read-only only after everything inside
it. -/
def childrenBeforeSelf (tr : List FsPath) : Prop :=
  ∀ i j : Nat, (hi : i < tr.length) → (hj : j < tr.length) →
    tr[i] <+: tr[j] → tr[i] ≠ tr[j] → j < i

theorem childrenBeforeSelf_nil : childrenBeforeSelf [] := by
  intro i j hi _ _ _
  exact absurd hi (by simp)

theorem childrenBeforeSelf_singleton (p : FsPath) : childrenBeforeSelf [p] := by
  intro i j hi hj h hne
  simp at hi hj
  subst hi
  subst hj
  simp at hne

theorem childrenBeforeSelf_append (tr1 tr2 : List FsPath)
    (h1 : childrenBeforeSelf tr1) (h2 : childrenBeforeSelf tr2)
    (hcross : ∀ q1 ∈ tr1, ∀ q2 ∈ tr2, q1 <+: q2 → q1 = q2) :
    childrenBeforeSelf (tr1 ++ tr2) := by
  intro i j hi hj hpre hne
  rcases Nat.lt_or_ge i tr1.length with hi1 | hi1
  · rcases Nat.lt_or_ge j tr1.length with hj1 | hj1
    · have := h1 i j hi1 hj1
      rw [List.getElem_append_left hi1, List.getElem_append_left hj1] at hpre hne
      exact this hpre hne
    · rw [List.getElem_append_left hi1] at hpre hne
      rw [List.getElem_append_right hj1] at hpre hne
      exact absurd (hcross _ (List.getElem_mem hi1) _ (List.getElem_mem _) hpre) hne
  · rcases Nat.lt_or_ge j tr1.length with hj1 | hj1
    · omega
    · rw [List.getElem_append_right hi1] at hpre hne
      rw [List.getElem_append_right hj1] at hpre hne
      have := h2 (i - tr1.length) (j - tr1.length) (by simp at hi; omega)
        (by simp at hj; omega) hpre hne
      omega

/-- Two paths lying under sibling subtrees with distinct names are
prefix-incomparable: the one cannot be a prefix of the other. -/
theorem no_prefix_across_siblings (path : FsPath) (n1 n2 : String) (q1 q2 : FsPath)
    (h1 : path ++ [n1] <+: q1) (h2 : path ++ [n2] <+: q2) (hne : n1 ≠ n2) :
    ¬ (q1 <+: q2) := by
  intro h
  have h1' : path ++ [n1] <+: q2 := h1.trans h
  have : path ++ [n1] <+: path ++ [n2] :=
    List.prefix_of_prefix_length_le h1' h2 (by simp)
  have heq : path ++ [n1] = path ++ [n2] := this.eq_of_length (by simp)
  exact hne (by simpa using heq)

/-- Every path in the `set_permissions` trace lies strictly under `path`, and
under the subtree of one of the listed entry names. -/
theorem mkEntriesRO_trace_scope (fail : FsPath → Bool) (path : FsPath)
    (entries : List (String × FsNode)) :
    ∀ q ∈ (mkEntriesRO fail path entries).2.2,
      ∃ n, n ∈ entries.map Prod.fst ∧ (path ++ [n]) <+: q := by
  induction path, entries using mkEntriesRO.induct fail with
  | case1 path =>
    intro q hq
    simp [mkEntriesRO] at hq
  | case2 path name ro rest ih =>
    intro q hq
    simp only [mkEntriesRO] at hq
    obtain ⟨n, hn, hp⟩ := ih q hq
    exact ⟨n, by simp [hn], hp⟩
  | case3 path name ro rest hfail =>
    intro q hq
    simp only [mkEntriesRO, hfail, if_pos] at hq
    simp at hq
    subst hq
    exact ⟨name, by simp, List.prefix_refl _⟩
  | case4 path name ro rest hfail ih =>
    intro q hq
    simp only [mkEntriesRO, if_neg hfail] at hq
    simp at hq
    rcases hq with hq | hq
    · subst hq
      exact ⟨name, by simp, List.prefix_refl _⟩
    · obtain ⟨n, hn, hp⟩ := ih q hq
      exact ⟨n, by simp [hn], hp⟩
  | case5 path name ro entries rest rc hok hfail ihc =>
    intro q hq
    have hok' : (mkEntriesRO fail (path ++ [name]) entries).2.1 = true := hok
    simp [mkEntriesRO, hok', hfail] at hq
    rcases hq with hq | hq
    · obtain ⟨n, _, hp⟩ := ihc q hq
      exact ⟨name, by simp, (List.prefix_append _ _).trans hp⟩
    · subst hq
      exact ⟨name, by simp, List.prefix_refl _⟩
  | case6 path name ro entries rest rc hok hfail ihc ih =>
    intro q hq
    have hok' : (mkEntriesRO fail (path ++ [name]) entries).2.1 = true := hok
    simp [mkEntriesRO, hok', hfail] at hq
    rcases hq with hq | hq | hq
    · obtain ⟨n, _, hp⟩ := ihc q hq
      exact ⟨name, by simp, (List.prefix_append _ _).trans hp⟩
    · subst hq
      exact ⟨name, by simp, List.prefix_refl _⟩
    · obtain ⟨n, hn, hp⟩ := ih q hq
      exact ⟨n, by simp [hn], hp⟩
  | case7 path name ro entries rest rc hok ihc =>
    intro q hq
    have hok' : ¬ (mkEntriesRO fail (path ++ [name]) entries).2.1 = true := hok
    simp [mkEntriesRO, hok'] at hq
    obtain ⟨n, _, hp⟩ := ihc q hq
    exact ⟨name, by simp, (List.prefix_append _ _).trans hp⟩

/-- Trace paths of a recursive call lie strictly below its base path. -/
theorem mkEntriesRO_trace_strict (fail : FsPath → Bool) (path : FsPath)
    (entries : List (String × FsNode)) :
    ∀ q ∈ (mkEntriesRO fail path entries).2.2,
      path <+: q ∧ path.length < q.length := by
  intro q hq
  obtain ⟨n, _, hp⟩ := mkEntriesRO_trace_scope fail path entries q hq
  refine ⟨(List.prefix_append path [n]).trans hp, ?_⟩
  have := hp.length_le
  simp at this
  omega

theorem namesNodup_cons_any (name : String) (node : FsNode)
    (rest : List (String × FsNode))
    (h : namesNodup ((name, node) :: rest) = true) :
    ∀ n ∈ rest.map Prod.fst, n ≠ name := by
  have hany : rest.any (fun e => e.1 == name) = false := by
    cases node <;>
      simp only [namesNodup, Bool.and_eq_true, Bool.not_eq_true'] at h <;>
      tauto
  intro n hn
  rw [List.any_eq_false] at hany
  obtain ⟨e, he, hfst⟩ := List.mem_map.mp hn
  have := hany e he
  simp at this
  rw [← hfst]
  exact this

theorem namesNodup_cons_rest (name : String) (node : FsNode)
    (rest : List (String × FsNode))
    (h : namesNodup ((name, node) :: rest) = true) :
    namesNodup rest = true := by
  cases node <;>
    simp only [namesNodup, Bool.and_eq_true, Bool.not_eq_true'] at h <;>
    tauto

theorem namesNodup_cons_dir (name : String) (ro : Bool)
    (entries rest : List (String × FsNode))
    (h : namesNodup ((name, .dir ro entries) :: rest) = true) :
    namesNodup entries = true := by
  simp only [namesNodup, Bool.and_eq_true, Bool.not_eq_true'] at h
  tauto

/-- The `set_permissions` trace of the hardener loop is post-ordered: every
operation on a path comes after all operations on its strict descendants. -/
theorem mkEntriesRO_trace_postOrder (fail : FsPath → Bool) (path : FsPath)
    (entries : List (String × FsNode)) (hnd : namesNodup entries = true) :
    childrenBeforeSelf (mkEntriesRO fail path entries).2.2 := by
  induction path, entries using mkEntriesRO.induct fail with
  | case1 path =>
    have e : (mkEntriesRO fail path []).2.2 = [] := by simp [mkEntriesRO]
    rw [e]
    exact childrenBeforeSelf_nil
  | case2 path name ro rest ih =>
    have e : (mkEntriesRO fail path ((name, .symlink ro) :: rest)).2.2 =
        (mkEntriesRO fail path rest).2.2 := by simp [mkEntriesRO]
    rw [e]
    exact ih (namesNodup_cons_rest name _ rest hnd)
  | case3 path name ro rest hfail =>
    have e : (mkEntriesRO fail path ((name, .file ro) :: rest)).2.2 =
        [path ++ [name]] := by simp [mkEntriesRO, hfail]
    rw [e]
    exact childrenBeforeSelf_singleton _
  | case4 path name ro rest hfail ih =>
    have e : (mkEntriesRO fail path ((name, .file ro) :: rest)).2.2 =
        [path ++ [name]] ++ (mkEntriesRO fail path rest).2.2 := by
      simp [mkEntriesRO, hfail]
    rw [e]
    refine childrenBeforeSelf_append _ _ (childrenBeforeSelf_singleton _)
      (ih (namesNodup_cons_rest name _ rest hnd)) ?_
    intro q1 hq1 q2 hq2 hp
    simp at hq1
    subst hq1
    obtain ⟨n2, hn2, hpre2⟩ := mkEntriesRO_trace_scope fail path rest q2 hq2
    exact absurd hp
      (no_prefix_across_siblings path name n2 _ q2 (List.prefix_refl _) hpre2
        (namesNodup_cons_any name _ rest hnd n2 hn2).symm ∘ fun h => h)
  | case5 path name ro entries rest rc hok hfail ihc =>
    have hok' : (mkEntriesRO fail (path ++ [name]) entries).2.1 = true := hok
    have e : (mkEntriesRO fail path ((name, .dir ro entries) :: rest)).2.2 =
        (mkEntriesRO fail (path ++ [name]) entries).2.2 ++ [path ++ [name]] := by
      simp [mkEntriesRO, hok', hfail]
    rw [e]
    refine childrenBeforeSelf_append _ _
      (ihc (namesNodup_cons_dir name ro entries rest hnd))
      (childrenBeforeSelf_singleton _) ?_
    intro q1 hq1 q2 hq2 hp
    simp at hq2
    subst hq2
    have := (mkEntriesRO_trace_strict fail (path ++ [name]) entries q1 hq1).2
    have := hp.length_le
    omega
  | case6 path name ro entries rest rc hok hfail ihc ih =>
    have hok' : (mkEntriesRO fail (path ++ [name]) entries).2.1 = true := hok
    have e : (mkEntriesRO fail path ((name, .dir ro entries) :: rest)).2.2 =
        ((mkEntriesRO fail (path ++ [name]) entries).2.2 ++ [path ++ [name]]) ++
          (mkEntriesRO fail path rest).2.2 := by
      simp [mkEntriesRO, hok', hfail]
    rw [e]
    have hpartL : childrenBeforeSelf
        ((mkEntriesRO fail (path ++ [name]) entries).2.2 ++ [path ++ [name]]) := by
      refine childrenBeforeSelf_append _ _
        (ihc (namesNodup_cons_dir name ro entries rest hnd))
        (childrenBeforeSelf_singleton _) ?_
      intro q1 hq1 q2 hq2 hp
      simp at hq2
      subst hq2
      have := (mkEntriesRO_trace_strict fail (path ++ [name]) entries q1 hq1).2
      have := hp.length_le
      omega
    refine childrenBeforeSelf_append _ _ hpartL
      (ih (namesNodup_cons_rest name _ rest hnd)) ?_
    intro q1 hq1 q2 hq2 hp
    obtain ⟨n2, hn2, hpre2⟩ := mkEntriesRO_trace_scope fail path rest q2 hq2
    have h1 : path ++ [name] <+: q1 := by
      rcases List.mem_append.mp hq1 with hq1 | hq1
      · exact (mkEntriesRO_trace_strict fail (path ++ [name]) entries q1 hq1).1
      · simp at hq1
        subst hq1
        exact List.prefix_refl _
    exact absurd hp
      (no_prefix_across_siblings path name n2 q1 q2 h1 hpre2
        (namesNodup_cons_any name _ rest hnd n2 hn2).symm ∘ fun h => h)
  | case7 path name ro entries rest rc hok ihc =>
    have hok' : ¬ (mkEntriesRO fail (path ++ [name]) entries).2.1 = true := hok
    have e : (mkEntriesRO fail path ((name, .dir ro entries) :: rest)).2.2 =
        (mkEntriesRO fail (path ++ [name]) entries).2.2 := by
      simp [mkEntriesRO, hok']
    rw [e]
    exact ihc (namesNodup_cons_dir name ro entries rest hnd)

/-- On a run that completes without error, the hardener's output is exactly
the fully hardened children list. -/
theorem mkEntriesRO_ok_eq_hardened (fail : FsPath → Bool) (path : FsPath)
    (entries : List (String × FsNode))
    (h : (mkEntriesRO fail path entries).2.1 = true) :
    (mkEntriesRO fail path entries).1 = hardenedEntries entries := by
  induction path, entries using mkEntriesRO.induct fail with
  | case1 path => simp [mkEntriesRO, hardenedEntries]
  | case2 path name ro rest ih =>
    have e : mkEntriesRO fail path ((name, .symlink ro) :: rest) =
        ((name, .symlink ro) :: (mkEntriesRO fail path rest).1,
          (mkEntriesRO fail path rest).2) := by simp [mkEntriesRO]
    rw [e] at h ⊢
    simp [hardenedEntries]
    exact ih h
  | case3 path name ro rest hfail =>
    have e : (mkEntriesRO fail path ((name, .file ro) :: rest)).2.1 = false := by
      simp [mkEntriesRO, hfail]
    rw [e] at h
    exact absurd h (by simp)
  | case4 path name ro rest hfail ih =>
    have e : mkEntriesRO fail path ((name, .file ro) :: rest) =
        ((name, .file true) :: (mkEntriesRO fail path rest).1,
          ((mkEntriesRO fail path rest).2.1,
            (path ++ [name]) :: (mkEntriesRO fail path rest).2.2)) := by
      simp [mkEntriesRO, hfail]
    rw [e] at h ⊢
    simp [hardenedEntries]
    exact ih h
  | case5 path name ro entries rest rc hok hfail ihc =>
    have hok' : (mkEntriesRO fail (path ++ [name]) entries).2.1 = true := hok
    have e : (mkEntriesRO fail path ((name, .dir ro entries) :: rest)).2.1 = false := by
      simp [mkEntriesRO, hok', hfail]
    rw [e] at h
    exact absurd h (by simp)
  | case6 path name ro entries rest rc hok hfail ihc ih =>
    have hok' : (mkEntriesRO fail (path ++ [name]) entries).2.1 = true := hok
    have e : mkEntriesRO fail path ((name, .dir ro entries) :: rest) =
        ((name, .dir true (mkEntriesRO fail (path ++ [name]) entries).1) ::
            (mkEntriesRO fail path rest).1,
          ((mkEntriesRO fail path rest).2.1,
            (mkEntriesRO fail (path ++ [name]) entries).2.2 ++
              (path ++ [name]) :: (mkEntriesRO fail path rest).2.2)) := by
      simp [mkEntriesRO, hok', hfail]
    rw [e] at h ⊢
    simp only [hardenedEntries]
    rw [ihc hok', ih h]
  | case7 path name ro entries rest rc hok ihc =>
    have hok' : ¬ (mkEntriesRO fail (path ++ [name]) entries).2.1 = true := hok
    have e : (mkEntriesRO fail path ((name, .dir ro entries) :: rest)).2.1 = false := by
      simp [mkEntriesRO, hok']
    rw [e] at h
    exact absurd h (by simp)

/-- C4: when `make_tree_entries_read_only` on a directory returns
successfully, every regular file and directory strictly inside is marked
read-only and every symlink entry is left untouched (the result is exactly
the hardened children list), and the `set_permissions` trace is
post-ordered: each directory's children are made read-only before the
directory entry itself. Sibling names are assumed distinct, as `read_dir`
guarantees. -/
theorem make_tree_entries_read_only_correct (fail : FsPath → Bool) (path : FsPath)
    (ro : Bool) (entries : List (String × FsNode)) (folder' : FsNode) (tr : List FsPath)
    (hnd : namesNodup entries = true)
    (h : make_tree_entries_read_only fail path (.dir ro entries) = (folder', (true, tr))) :
    folder' = .dir ro (hardenedEntries entries) ∧ childrenBeforeSelf tr := by
  have e : make_tree_entries_read_only fail path (.dir ro entries) =
      (.dir ro (mkEntriesRO fail path entries).1, (mkEntriesRO fail path entries).2) := rfl
  rw [e] at h
  have hA := congrArg Prod.fst h
  have hB := congrArg Prod.snd h
  simp only at hA hB
  have hok : (mkEntriesRO fail path entries).2.1 = true := by rw [hB]
  have htr : (mkEntriesRO fail path entries).2.2 = tr := by rw [hB]
  constructor
  · rw [← hA, mkEntriesRO_ok_eq_hardened fail path entries hok]
  · rw [← htr]
    exact mkEntriesRO_trace_postOrder fail path entries hnd

/-- Witness for C4: a folder holding a regular file, a subdirectory with a
nested file, and a symlink, with no permission-setting fault injected. -/
theorem make_tree_entries_read_only_correct_witness :
    FsNode.dir false
        [("f", FsNode.file true), ("sub", FsNode.dir true [("g", FsNode.file true)]),
          ("s", FsNode.symlink false)] =
      FsNode.dir false (hardenedEntries
        [("f", FsNode.file false), ("sub", FsNode.dir false [("g", FsNode.file false)]),
          ("s", FsNode.symlink false)]) ∧
    childrenBeforeSelf [["f"], ["sub", "g"], ["sub"]] :=
  make_tree_entries_read_only_correct (fun _ => false) [] false
    [("f", FsNode.file false), ("sub", FsNode.dir false [("g", FsNode.file false)]),
      ("s", FsNode.symlink false)]
    (FsNode.dir false
      [("f", FsNode.file true), ("sub", FsNode.dir true [("g", FsNode.file true)]),
        ("s", FsNode.symlink false)])
    [["f"], ["sub", "g"], ["sub"]]
    (by simp [namesNodup])
    (by simp [make_tree_entries_read_only, mkEntriesRO])

/-- C5: `make_tree_entries_read_only` never changes the permissions of the
folder itself: the returned root node keeps its permission bit, and the
folder's own path is never passed to `set_permissions`, whether the call
succeeds or fails (for any fault oracle). -/
theorem make_tree_entries_read_only_frame (fail : FsPath → Bool) (path : FsPath)
    (ro : Bool) (entries : List (String × FsNode)) :
    (∃ entries',
      (make_tree_entries_read_only fail path (.dir ro entries)).1 = .dir ro entries') ∧
    path ∉ (make_tree_entries_read_only fail path (.dir ro entries)).2.2 := by
  constructor
  · exact ⟨(mkEntriesRO fail path entries).1, rfl⟩
  · intro hmem
    have hmem' : path ∈ (mkEntriesRO fail path entries).2.2 := hmem
    have := (mkEntriesRO_trace_strict fail path entries path hmem').2
    omega

/-- Witness for C5 at a concrete folder and a fault oracle that fails every
`set_permissions` call. -/
theorem make_tree_entries_read_only_frame_witness :
    (∃ entries',
      (make_tree_entries_read_only (fun _ => true) ["top"]
        (.dir false [("f", FsNode.file false)])).1 = .dir false entries') ∧
    ["top"] ∉ (make_tree_entries_read_only (fun _ => true) ["top"]
      (.dir false [("f", FsNode.file false)])).2.2 :=
  make_tree_entries_read_only_frame (fun _ => true) ["top"] false
    [("f", FsNode.file false)]

/-! ### HTTP provider (`HttpProvider::fetch_artifact`) -/

/-- A `serde_jsonrc` value, as far as the provider config is concerned. -/
inductive Json where
  | null
  | bool (b : Bool)
  | num (n : Int)
  | str (s : String)
  | arr (xs : List Json)
  | obj (fields : List (String × Json))

/-- `HttpProviderConfig` (src/http_provider.rs, lines 52-55): the one
required field `url`, a string. -/
structure HttpProviderConfig where
  url : String
deriving DecidableEq, Repr

/-- An `anyhow` error as `fetch_artifact` produces it: either the config
deserialization error propagated by `?`, or a transfer failure wrapped with
the context naming the failed URL. -/
inductive FetchError where
  | config (msg : String)
  | transfer (url : String) (msg : String)
deriving DecidableEq, Repr

/-- `HttpProviderConfig::deserialize`: succeed iff the value is an object
whose `url` field is a string (serde ignores no required field; extra
fields are permitted and irrelevant here). -/
def HttpProviderConfig.deserialize : Json → Except String HttpProviderConfig
  | .obj fields =>
    match fields.lookup "url" with
    | some (.str s) => .ok ⟨s⟩
    | some _ => .error "invalid type for field url"
    | none => .error "missing field url"
  | _ => .error "invalid type: expected a map"

/-- The destination filesystem: an association of paths to file contents
(later bindings shadow earlier ones). -/
abbrev DestFs := List (String × String)

/-- Read a file's content. -/
def readFile (fs : DestFs) (p : String) : Option String :=
  fs.lookup p

/-- `FileLock` (src/util/file_lock.rs boundary): opaque evidence of holding
the shard lock; the HTTP provider receives it but never reads it. -/
structure FileLock where
  token : Nat
deriving DecidableEq, Repr

/-- `ArtifactEntry` (src/config.rs boundary): the one field the provider
reads is `size`. -/
structure ArtifactEntry where
  size : Nat
deriving DecidableEq, Repr

/-- `FetchContext` (src/curl.rs boundary): display name, expected length,
progress toggle. -/
structure FetchContext where
  artifact_name : String
  content_length : Nat
  show_progress : Bool
deriving DecidableEq, Repr

/-- The remote side: what a GET of each URL yields (`none` is a transfer
failure). -/
structure Network where
  get : String → Option String

/-- Modelled from the spec: `CurlCommand::get_request` (src/curl.rs is not
among the given sources). Per §4.3/§7, on success the destination path
contains exactly the transferred bytes, and a failing transfer must not
leave a partial file: the destination is unchanged and the error is
reported. The fetch context only affects progress display, not the stored
bytes. -/
def CurlCommand.get_request (net : Network) (url : String) (destination : String)
    (_ctx : FetchContext) (fs : DestFs) : DestFs × Except String Unit :=
  match net.get url with
  | some content => ((destination, content) :: fs, .ok ())
  | none => (fs, .error "curl exited with failure")

/-- `HttpProvider::fetch_artifact` (src/http_provider.rs, lines 26-49):
deserialize the config (propagating its error), build the fetch context
with the URL as display name, the entry's size, and progress disabled, then
run the GET into `destination`, wrapping any transfer error with the URL.
Returns the resulting filesystem, the result, and the list of URLs the
external transfer command was invoked on. -/
def HttpProvider.fetch_artifact (net : Network) (provider_config : Json)
    (destination : String) (_fetch_lock : FileLock) (artifact_entry : ArtifactEntry)
    (fs : DestFs) : DestFs × Except FetchError Unit × List String :=
  match HttpProviderConfig.deserialize provider_config with
  | .error e => (fs, .error (.config e), [])
  | .ok config =>
    let url := config.url
    let show_progress := false
    let fetch_context : FetchContext := ⟨url, artifact_entry.size, show_progress⟩
    match CurlCommand.get_request net url destination fetch_context fs with
    | (fs', .ok ()) => (fs', .ok (), [url])
    | (fs', .error e) => (fs', .error (.transfer url e), [url])

/-- C2: `fetch_artifact` leaves no partial file: on any error (config or
transfer) the destination filesystem is unchanged, and on success the
destination contains exactly the content the network returned for the
configured URL. -/
theorem fetch_artifact_no_partial_file (net : Network) (cfg : Json)
    (destination : String) (lock : FileLock) (entry : ArtifactEntry) (fs : DestFs) :
    (∀ e, (HttpProvider.fetch_artifact net cfg destination lock entry fs).2.1 = .error e →
      (HttpProvider.fetch_artifact net cfg destination lock entry fs).1 = fs) ∧
    ((HttpProvider.fetch_artifact net cfg destination lock entry fs).2.1 = .ok () →
      ∃ config content, HttpProviderConfig.deserialize cfg = .ok config ∧
        net.get config.url = some content ∧
        readFile (HttpProvider.fetch_artifact net cfg destination lock entry fs).1
          destination = some content) := by
  cases hd : HttpProviderConfig.deserialize cfg with
  | error e =>
    refine ⟨fun e' he' => ?_, fun hok => ?_⟩
    · simp [HttpProvider.fetch_artifact, hd]
    · simp [HttpProvider.fetch_artifact, hd] at hok
  | ok config =>
    cases hn : net.get config.url with
    | some content =>
      refine ⟨fun e' he' => ?_, fun _ => ⟨config, content, rfl, hn, ?_⟩⟩
      · simp [HttpProvider.fetch_artifact, CurlCommand.get_request, hd, hn] at he'
      · simp [HttpProvider.fetch_artifact, CurlCommand.get_request, hd, hn, readFile]
    | none =>
      refine ⟨fun e' he' => ?_, fun hok => ?_⟩
      · simp [HttpProvider.fetch_artifact, CurlCommand.get_request, hd, hn]
      · simp [HttpProvider.fetch_artifact, CurlCommand.get_request, hd, hn] at hok

/-- Witness for C2: a failing network leaves the filesystem unchanged. -/
theorem fetch_artifact_no_partial_file_witness :
    (HttpProvider.fetch_artifact (Network.mk fun _ => none)
        (Json.obj [("url", Json.str "https://example/artifact")]) "dest"
        (FileLock.mk 0) (ArtifactEntry.mk 5) [("other", "x")]).1 = [("other", "x")] :=
  (fetch_artifact_no_partial_file (Network.mk fun _ => none)
      (Json.obj [("url", Json.str "https://example/artifact")]) "dest"
      (FileLock.mk 0) (ArtifactEntry.mk 5) [("other", "x")]).1
    (.transfer "https://example/artifact" "curl exited with failure") rfl

/-- C9: when the config's `url` field is absent or not a string (or the
config is not an object), `fetch_artifact` fails with the config
deserialization error and the external transfer command is never invoked. -/
theorem fetch_artifact_bad_config (net : Network) (cfg : Json)
    (destination : String) (lock : FileLock) (entry : ArtifactEntry) (fs : DestFs) (e : String)
    (hbad : HttpProviderConfig.deserialize cfg = .error e) :
    HttpProvider.fetch_artifact net cfg destination lock entry fs =
      (fs, .error (.config e), []) := by
  unfold HttpProvider.fetch_artifact
  rw [hbad]

/-- Witness for C9: a config with no `url` field fails without any network
call. -/
theorem fetch_artifact_bad_config_witness :
    HttpProvider.fetch_artifact (Network.mk fun _ => some "payload")
        (Json.obj [("uri", Json.str "https://example/artifact")]) "dest"
        (FileLock.mk 0) (ArtifactEntry.mk 5) [] =
      ([], .error (.config "missing field url"), []) :=
  fetch_artifact_bad_config (Network.mk fun _ => some "payload")
    (Json.obj [("uri", Json.str "https://example/artifact")]) "dest"
    (FileLock.mk 0) (ArtifactEntry.mk 5) [] "missing field url" rfl

/-- C10: `fetch_artifact` is independent of the `fetch_lock` argument: any
two lock values produce identical filesystem effects, results, and transfer
invocations. -/
theorem fetch_artifact_lock_independent (net : Network) (cfg : Json)
    (destination : String) (lock1 lock2 : FileLock) (entry : ArtifactEntry)
    (fs : DestFs) :
    HttpProvider.fetch_artifact net cfg destination lock1 entry fs =
      HttpProvider.fetch_artifact net cfg destination lock2 entry fs := rfl

/-- Witness for C10 at two distinct concrete lock values. -/
theorem fetch_artifact_lock_independent_witness :
    HttpProvider.fetch_artifact (Network.mk fun _ => some "payload")
        (Json.obj [("url", Json.str "https://example/artifact")]) "dest"
        (FileLock.mk 0) (ArtifactEntry.mk 5) [] =
      HttpProvider.fetch_artifact (Network.mk fun _ => some "payload")
        (Json.obj [("url", Json.str "https://example/artifact")]) "dest"
        (FileLock.mk 1) (ArtifactEntry.mk 5) [] :=
  fetch_artifact_lock_independent (Network.mk fun _ => some "payload")
    (Json.obj [("url", Json.str "https://example/artifact")]) "dest"
    (FileLock.mk 0) (FileLock.mk 1) (ArtifactEntry.mk 5) []

end Dotslash
